import Mathlib

/-!
Verification of the turn-orchestration core of a two-agent chess system.

The sources embedded here are:
  * `src/chess/board.py`        — SSE orchestrator `run`
  * `src/chess/board_agent.py`  — agent orchestrator `run_game`
  * `src/chess/white/white_agent.py` — white provider `move_tool`
  * `src/chess/black/black_agent.py` — black provider `move_tool`

Pure string manipulation (`str.strip`, `str.lower`, `str.split`,
`", ".join`) and the trusted python-chess library calls used by the code
(`chess.Move.from_uci`, `board.is_game_over`, `board.push`) are modelled
explicitly below; everything else follows the Python control flow line by
line.
-/

/-! ### Python string primitives (ASCII model) -/

/-- ASCII whitespace recognised by Python `str.strip` / `str.split`. -/
def isPySpace (c : Char) : Bool :=
  c == ' ' || c == '\t' || c == '\n' || c == '\r' || c == '\x0b' || c == '\x0c'

/-- `str.strip()` on a character list: drop whitespace from both ends. -/
def stripList (l : List Char) : List Char :=
  ((l.dropWhile isPySpace).reverse.dropWhile isPySpace).reverse

/-- Python `s.strip()`. -/
def pyStrip (s : String) : String := ⟨stripList s.data⟩

/-- Python `str.lower` on a single ASCII character. -/
def pyLowerChar : Char → Char
  | 'A' => 'a' | 'B' => 'b' | 'C' => 'c' | 'D' => 'd' | 'E' => 'e'
  | 'F' => 'f' | 'G' => 'g' | 'H' => 'h' | 'I' => 'i' | 'J' => 'j'
  | 'K' => 'k' | 'L' => 'l' | 'M' => 'm' | 'N' => 'n' | 'O' => 'o'
  | 'P' => 'p' | 'Q' => 'q' | 'R' => 'r' | 'S' => 's' | 'T' => 't'
  | 'U' => 'u' | 'V' => 'v' | 'W' => 'w' | 'X' => 'x' | 'Y' => 'y'
  | 'Z' => 'z'
  | c => c

/-- Python `s.lower()` (ASCII model). -/
def pyLower (s : String) : String := ⟨s.data.map pyLowerChar⟩

/-- Worker for Python `s.split()`: `cur` is the (reversed) word being read. -/
def wordsAux : List Char → List Char → List (List Char)
  | cur, [] => if cur.isEmpty then [] else [cur.reverse]
  | cur, c :: cs =>
    if isPySpace c then
      if cur.isEmpty then wordsAux [] cs else cur.reverse :: wordsAux [] cs
    else
      wordsAux (c :: cur) cs

/-- Python `s.split()` with no separator: maximal runs of non-whitespace. -/
def pyWords (l : List Char) : List (List Char) := wordsAux [] l

/-- Python `", ".join(l)`. -/
def joinComma : List String → String
  | [] => ""
  | [m] => m
  | m :: rest => m ++ ", " ++ joinComma rest

/-- Is `p` a prefix of `l`? (Boolean, on character lists.) -/
def listPre : List Char → List Char → Bool
  | [], _ => true
  | _ :: _, [] => false
  | a :: as, b :: bs => a == b && listPre as bs

/-- Does `p` occur as a contiguous sublist of `l`? -/
def listSub (p : List Char) : List Char → Bool
  | [] => listPre p []
  | b :: bs => listPre p (b :: bs) || listSub p bs

/-- Python `pat in s` for strings. -/
def containsStr (s pat : String) : Bool := listSub pat.data s.data

/-! ### The UCI move grammar and `chess.Move.from_uci` -/

/-- A file letter `[a-h]`. -/
def isFileChar (c : Char) : Bool := 'a' ≤ c && c ≤ 'h'

/-- A rank digit `[1-8]`. -/
def isRankChar (c : Char) : Bool := '1' ≤ c && c ≤ '8'

/-- The exact move grammar of `UCI_PATTERN` in `board_agent.py` line 54
(`[a-h][1-8][a-h][1-8]` with an optional trailing `[qrbn]`), i.e. the
language the pattern denotes without Python's end-anchor quirk. -/
def uciGrammar (s : String) : Bool :=
  match s.data with
  | [a, b, c, d] => isFileChar a && isRankChar b && isFileChar c && isRankChar d
  | [a, b, c, d, p] =>
    isFileChar a && isRankChar b && isFileChar c && isRankChar d &&
      (p == 'q' || p == 'r' || p == 'b' || p == 'n')
  | _ => false

/-- `UCI_PATTERN.match(s)` as a Boolean: Python's `$` also matches just
before a single trailing newline, so the regex additionally accepts
`w ++ "\n"` for `w` in the grammar. -/
def uciMatchPy (s : String) : Bool :=
  uciGrammar s || (s.data.getLast? == some '\n' && uciGrammar ⟨s.data.dropLast⟩)

/-- `SQUARE_NAMES.index` for a file/rank pair (python-chess square order
`a1, b1, …, h8`). -/
def squareIdx (f r : Char) : Option Nat :=
  if isFileChar f && isRankChar r then
    some ((r.toNat - '1'.toNat) * 8 + (f.toNat - 'a'.toNat))
  else none

/-- `PIECE_SYMBOLS.index` for a piece letter (`[None, p, n, b, r, q, k]`). -/
def pieceIdx : Char → Option Nat
  | 'p' => some 1 | 'n' => some 2 | 'b' => some 3
  | 'r' => some 4 | 'q' => some 5 | 'k' => some 6
  | _ => none

/-- A python-chess `Move` value as built by `Move.from_uci`. -/
structure PyMove where
  fromSq : Nat
  toSq : Nat
  promotion : Option Nat
  dropPiece : Option Nat
deriving DecidableEq

/-- python-chess `chess.Move.from_uci` (trusted library; `none` models the
raised `InvalidMoveError`): accepts `0000` (null move), crazyhouse drops
`X@sq`, and 4/5-character square pairs with any piece-symbol promotion,
rejecting equal source and destination squares. -/
def fromUci (uci : String) : Option PyMove :=
  if uci == "0000" then some ⟨0, 0, none, none⟩
  else
    match uci.data with
    | [p, '@', f, r] =>
      match pieceIdx (pyLowerChar p), squareIdx f r with
      | some d, some sq => some ⟨sq, sq, none, some d⟩
      | _, _ => none
    | [f1, r1, f2, r2] =>
      match squareIdx f1 r1, squareIdx f2 r2 with
      | some a, some b => if a == b then none else some ⟨a, b, none, none⟩
      | _, _ => none
    | [f1, r1, f2, r2, pc] =>
      match squareIdx f1 r1, squareIdx f2 r2, pieceIdx pc with
      | some a, some b, some pr => if a == b then none else some ⟨a, b, some pr, none⟩
      | _, _, _ => none
    | _ => none

/-! ### Positions and the rules oracle -/

/-- Snapshot of a python-chess `Board` as consumed by the orchestrators:
`turn` (`True` = white), the FEN serialisation, the legal moves in UCI
encoding, and the terminal-status predicates the code queries. -/
structure Position where
  turn : Bool
  fen : String
  legalMoves : List String
  inCheck : Bool
  insufficientMaterial : Bool
  seventyfiveMoves : Bool
  fivefoldRepetition : Bool
  canClaimFiftyMoves : Bool
  canClaimThreefold : Bool
deriving DecidableEq

/-- python-chess `board.is_checkmate()`: in check with no legal move. -/
def isCheckmate (p : Position) : Bool := p.legalMoves.isEmpty && p.inCheck

/-- python-chess `board.is_stalemate()`: not in check, no legal move. -/
def isStalemate (p : Position) : Bool := p.legalMoves.isEmpty && !p.inCheck

/-- python-chess `board.is_game_over()` (default `claim_draw=False`). -/
def isGameOver (p : Position) : Bool :=
  isCheckmate p || p.insufficientMaterial || isStalemate p ||
    p.seventyfiveMoves || p.fivefoldRepetition

/-- The `reason` computation of the `game_summary` block, identical in
`board.py` lines 142-147 and `board_agent.py` lines 231-236. -/
def gameReason (p : Position) : String :=
  if isCheckmate p then "Checkmate"
  else if isStalemate p then "Stalemate"
  else if p.insufficientMaterial then "Insufficient material"
  else if p.canClaimFiftyMoves then "Fifty-move rule"
  else if p.canClaimThreefold then "Threefold repetition"
  else "Unknown"

/-- First listed condition that holds wins; default is the last entry. -/
def firstMatching : List (Bool × String) → String
  | [] => "Unknown"
  | (b, r) :: rest => if b then r else firstMatching rest

/-- Modelled from the spec: the ordered precedence
Checkmate > Stalemate > InsufficientMaterial > FiftyMoveRule >
ThreefoldRepetition > Unknown, first matching condition wins. -/
def reasonOrdered (p : Position) : String :=
  firstMatching
    [(isCheckmate p, "Checkmate"),
     (isStalemate p, "Stalemate"),
     (p.insufficientMaterial, "Insufficient material"),
     (p.canClaimFiftyMoves, "Fifty-move rule"),
     (p.canClaimThreefold, "Threefold repetition")]

/-- The initial `chess.Board()` position with its twenty legal moves. -/
def startPos : Position :=
  { turn := true
    fen := "rnbqkbnr/pppppppp/8/8/8/8/PPPPPPPP/RNBQKBNR w KQkq - 0 1"
    legalMoves := ["a2a3", "a2a4", "b2b3", "b2b4", "c2c3", "c2c4",
                   "d2d3", "d2d4", "e2e3", "e2e4", "f2f3", "f2f4",
                   "g2g3", "g2g4", "h2h3", "h2h4", "b1a3", "b1c3",
                   "g1f3", "g1h3"]
    inCheck := false
    insufficientMaterial := false
    seventyfiveMoves := false
    fivefoldRepetition := false
    canClaimFiftyMoves := false
    canClaimThreefold := false }

/-- The position after `e2e4` (black to move) with its twenty legal moves. -/
def afterE4Pos : Position :=
  { turn := false
    fen := "rnbqkbnr/pppppppp/8/8/4P3/8/PPPP1PPP/RNBQKBNR b KQkq e3 0 1"
    legalMoves := ["a7a6", "a7a5", "b7b6", "b7b5", "c7c6", "c7c5",
                   "d7d6", "d7d5", "e7e6", "e7e5", "f7f6", "f7f5",
                   "g7g6", "g7g5", "h7h6", "h7h5", "b8a6", "b8c6",
                   "g8f6", "g8h6"]
    inCheck := false
    insufficientMaterial := false
    seventyfiveMoves := false
    fivefoldRepetition := false
    canClaimFiftyMoves := false
    canClaimThreefold := false }

/-- A stalemate position (black to move, no legal move, not in check). -/
def stalePos : Position :=
  { turn := false
    fen := "5k2/5P2/5K2/8/8/8/8/8 b - - 0 1"
    legalMoves := []
    inCheck := false
    insufficientMaterial := false
    seventyfiveMoves := false
    fivefoldRepetition := false
    canClaimFiftyMoves := false
    canClaimThreefold := false }

/-- A concrete rules-oracle `apply` for witnesses: it flips the side to
move, as `board.push` always does. -/
def flipApply : Position → String → Position :=
  fun p _ => { p with turn := !p.turn }

/-! ### The white and black provider agents (`move_tool`) -/

/-- Retry budget of the provider agents (`MAX_NUMBER_OF_RETRIES`). -/
def MAX_NUMBER_OF_RETRIES : Nat := 5

/-- `resp.messages[-1].content.strip().split()[0].lower()` in
`white_agent.py` line 131 and `black_agent.py` line 123; `none` models the
`IndexError` raised by `[0]` on a whitespace-only reply. -/
def extractCandidate (raw : String) : Option String :=
  match pyWords (pyStrip raw).data with
  | [] => none
  | t :: _ => some (pyLower ⟨t⟩)

/-- `move_data.get("move", "").strip().lower()` in `board_agent.py` line
191: the candidate considered by `run_game` — the whole stripped,
lowercased field, with no token splitting. -/
def agCandidate (f : String) : String := pyLower (pyStrip f)

/-- The retry feedback prompt of `white_agent.py` lines 141-144. -/
def whiteRetryPrompt (uci : String) (legal : List String) : String :=
  "That move:" ++ uci ++ " is illegal or not in the valid moves list.\n" ++
    "Pick ONE move from: " ++ joinComma legal

/-- The retry feedback prompt of `black_agent.py` lines 133-136. -/
def blackRetryPrompt (uci : String) (legal : List String) : String :=
  "That move:" ++ uci ++ " is not in the list or is illegal. " ++
    "Pick ONE move from: " ++ joinComma legal

/-- Result of a `move_tool` call: the returned `{"uci": …}` dict, a
returned `{"error": …}` dict, or an exception escaping the tool body. -/
inductive ToolResult where
  | uciOk (uci : String)
  | errorDict (msg : String)
  | crash
deriving DecidableEq

/-- The white agent's `for _ in range(MAX_NUMBER_OF_RETRIES)` loop
(`white_agent.py` lines 129-149): `replies` is the stream of raw LLM
responses, `k` the attempts left, `i` the next reply index. -/
def whiteLoop (legal : List String) (replies : Nat → String) : Nat → Nat → ToolResult
  | 0, _ => .errorDict "illegal move (max retries exceeded)"
  | k + 1, i =>
    match extractCandidate (replies i) with
    | none => .crash
    | some uci => if uci ∈ legal then .uciOk uci else whiteLoop legal replies k (i + 1)

/-- The black agent's retry loop (`black_agent.py` lines 121-141); on
exhaustion the error message embeds the last rejected candidate. -/
def blackLoop (legal : List String) (replies : Nat → String) : Nat → Nat → String → ToolResult
  | 0, _, last => .errorDict ("illegal move " ++ last)
  | k + 1, i, _ =>
    match extractCandidate (replies i) with
    | none => .crash
    | some uci => if uci ∈ legal then .uciOk uci else blackLoop legal replies k (i + 1) uci

/-- `move_tool` of `white_agent.py` lines 86-149. The `fen` argument is
the parse result of `chess.Board(fen)` (`none` = `ValueError`). -/
def whiteMoveTool : Option Position → (Nat → String) → ToolResult
  | none, _ => .errorDict "Invalid FEN"
  | some p, replies =>
    if !p.turn then .errorDict "It\x27s not white\x27s turn in this position"
    else if p.legalMoves.isEmpty then .errorDict "no legal moves"
    else whiteLoop p.legalMoves replies MAX_NUMBER_OF_RETRIES 0

/-- `move_tool` of `black_agent.py` lines 78-141. -/
def blackMoveTool : Option Position → (Nat → String) → ToolResult
  | none, _ => .errorDict "Invalid FEN"
  | some p, replies =>
    if p.turn then .errorDict "It\x27s not black\x27s turn"
    else if p.legalMoves.isEmpty then .errorDict "no legal moves"
    else blackLoop p.legalMoves replies MAX_NUMBER_OF_RETRIES 0 ""

/-! ### Events and step results shared by the two orchestrators -/

/-- Observable orchestrator events: a provider call (which side was
addressed and the request text), an applied move, the final summary. -/
inductive GEvent where
  | call (white : Bool) (request : String)
  | accepted (uci : String)
  | summary (reason : String)
deriving DecidableEq

/-- Is this event an applied (`Accepted`) move? -/
def isAcceptedEv : GEvent → Bool
  | .accepted _ => true
  | _ => false

/-- Is this event the final game summary? -/
def isSummaryEv : GEvent → Bool
  | .summary _ => true
  | _ => false

/-- Number of summary events in a trace. -/
def summaryCount (ev : List GEvent) : Nat := ev.countP isSummaryEv

/-- Number of provider-call events in a trace. -/
def callCount (ev : List GEvent) : Nat :=
  ev.countP fun e => match e with | .call _ _ => true | _ => false

/-- Outcome of one loop iteration: continue with a new state, `break` out
of the loop, or an uncaught exception. -/
inductive StepRes (σ : Type) where
  | next (s : σ) (ev : List GEvent)
  | halt (ev : List GEvent)
  | crash (ev : List GEvent)
deriving DecidableEq

/-- The events recorded during the iteration. -/
def StepRes.events {σ : Type} : StepRes σ → List GEvent
  | .next _ ev => ev
  | .halt ev => ev
  | .crash ev => ev

/-- The continuation state, if the iteration loops. -/
def StepRes.toNext {σ : Type} : StepRes σ → Option σ
  | .next s _ => some s
  | _ => none

/-- Did the iteration `break` out of the game loop? -/
def StepRes.isHalt {σ : Type} : StepRes σ → Bool
  | .halt _ => true
  | _ => false

/-- Side addressed by the first provider call of the iteration. -/
def calledSide (ev : List GEvent) : Option Bool :=
  ev.findSome? fun e => match e with | .call w _ => some w | _ => none

/-- Final result of a run of an orchestrator loop. -/
inductive RunResult where
  | finished (summary : String)
  | crashed
  | outOfFuel
deriving DecidableEq

/-! ### The `board_agent.py` orchestrator (`run_game`) -/

/-- Retry budget of `run_game` (`MAX_RETRIES_ON_INVALID_MOVE`). -/
def MAX_RETRIES_ON_INVALID_MOVE : Nat := 5

/-- Loop state of `run_game`: the authoritative board and `no_retries`. -/
structure AgState where
  pos : Position
  noRetries : Nat
deriving DecidableEq

/-- Outcome of one `player_agent.run` exchange: the `move` field of the
parsed JSON reply (`none` = `json.JSONDecodeError`; an absent field is
`some ""` via `.get("move", "")`), or a transport failure raised by the
awaited call. -/
inductive MoveCall where
  | ok (moveField : Option String)
  | timeout
  | unreachable
deriving DecidableEq

/-- External inputs consumed by one `run_game` iteration: the board
agent's player-choice reply and the move-provider exchange. -/
structure AgReply where
  choice : String
  result : MoveCall
deriving DecidableEq

/-- The task string sent to the player agent (`board_agent.py` lines
179-181; the `\x7b\x7b…\x7d\x7d` braces and line continuations of the
f-string are reproduced literally). -/
def agTask (fen : String) : String :=
  "Select the next move based on the current board state (FEN) : " ++ fen ++
    "                                   Output the move in exact UCI format as a JSON object with \x27move\x27 field containing " ++
    "                                   only the 4-5 character UCI notation(e.g., \x7b\x27move\x27: \x27e2e4\x27\x7d)."

/-- The request `run_game` would send to the move provider from state
`s` — it depends only on the current position's FEN. -/
def agRequest (s : AgState) : String := agTask s.pos.fen

/-- `current_player = result.messages[-1].content.strip().lower()` and the
workbench selection `if current_player == "white"` (lines 153-166):
`true` = the white provider is addressed. -/
def agSide (choice : String) : Bool := pyLower (pyStrip choice) == "white"

/-- The shared retry tail of the `except` block (lines 200-208). -/
def agRetry (s : AgState) (ev : List GEvent) : StepRes AgState :=
  if s.noRetries < MAX_RETRIES_ON_INVALID_MOVE then
    .next ⟨s.pos, s.noRetries + 1⟩ ev
  else
    .halt ev

/-- One iteration of the `run_game` while-loop body (`board_agent.py`
lines 141-227), given the rules-oracle `ap` for `board.push`:
JSON-decode failure or a regex failure consumes a retry; an unparsable or
illegal UCI move `break`s; a legal move is pushed and resets the
counter; a transport failure propagates as an uncaught exception. -/
def agStep (ap : Position → String → Position) (s : AgState) (r : AgReply) :
    StepRes AgState :=
  let base := [GEvent.call (agSide r.choice) (agRequest s)]
  match r.result with
  | .timeout => .crash base
  | .unreachable => .crash base
  | .ok field? =>
    match field? with
    | none => agRetry s base
    | some f =>
      let uci := agCandidate f
      if uciMatchPy uci then
        match fromUci uci with
        | none => .halt base
        | some _ =>
          if uci ∈ s.pos.legalMoves then
            .next ⟨ap s.pos uci, 0⟩ (base ++ [GEvent.accepted uci])
          else
            .halt base
      else
        agRetry s base

/-- The `run_game` loop with the trailing `game_summary` block: the
terminal check guards each iteration; a `break` still reaches the summary
block, an uncaught exception does not. -/
def agRun (ap : Position → String → Position) :
    Nat → AgState → (Nat → AgReply) → RunResult × List GEvent
  | 0, _, _ => (.outOfFuel, [])
  | fuel + 1, s, inp =>
    if isGameOver s.pos then
      (.finished (gameReason s.pos), [GEvent.summary (gameReason s.pos)])
    else
      match agStep ap s (inp 0) with
      | .next s2 ev =>
        ((agRun ap fuel s2 fun n => inp (n + 1)).1,
          ev ++ (agRun ap fuel s2 fun n => inp (n + 1)).2)
      | .halt ev => (.finished (gameReason s.pos), ev ++ [GEvent.summary (gameReason s.pos)])
      | .crash ev => (.crashed, ev)

/-! ### The `board.py` orchestrator (`run`) -/

/-- Retry budget of `board.py` (`max_invalid`, line 59). -/
def max_invalid : Nat := 50

/-- Loop state of `board.py` `run`: the board, `invalid_count`, and the
separately tracked `current_name` (`true` = `"white"`). -/
structure BState where
  pos : Position
  invalidCount : Nat
  currentWhite : Bool
deriving DecidableEq

/-- Classification of the raw `call_tool` reply `content` by the checks of
`board.py` lines 93-114: empty or lacking the substring `uci`; containing
it but not valid JSON (`json.loads` raises, uncaught); valid JSON without
a `uci` key; valid JSON with `payload["uci"]`; or a transport failure
raised by the awaited call. -/
inductive BReply where
  | noUciSubstr
  | jsonError
  | jsonNoUciKey
  | jsonUci (uci : String)
  | timeout
  | unreachable
deriving DecidableEq

/-- One iteration of the `run` while-loop body (`board.py` lines 62-137).
Note line 101 resets `invalid_count` to 0 before the second check
increments it, so the `invalid_count >= max_invalid` branch compares
`0 + 1` against 50. -/
def boardStep (ap : Position → String → Position) (s : BState) (r : BReply) :
    StepRes BState :=
  let base := [GEvent.call s.currentWhite s.pos.fen]
  match r with
  | .timeout => .crash base
  | .unreachable => .crash base
  | .jsonError => .crash base
  | .noUciSubstr =>
    if s.invalidCount + 1 ≤ max_invalid then
      .next { s with invalidCount := s.invalidCount + 1 } base
    else
      .halt base
  | .jsonNoUciKey =>
    if 0 + 1 ≥ max_invalid then
      .halt base
    else
      .next { s with invalidCount := 0 + 1 } base
  | .jsonUci uci =>
    match fromUci uci with
    | none => .halt base
    | some _ =>
      if uci ∈ s.pos.legalMoves then
        .next ⟨ap s.pos uci, 0, !s.currentWhite⟩ (base ++ [GEvent.accepted uci])
      else
        .halt base

/-- The `run` loop of `board.py` with its trailing `game_summary` block. -/
def boardRun (ap : Position → String → Position) :
    Nat → BState → (Nat → BReply) → RunResult × List GEvent
  | 0, _, _ => (.outOfFuel, [])
  | fuel + 1, s, inp =>
    if isGameOver s.pos then
      (.finished (gameReason s.pos), [GEvent.summary (gameReason s.pos)])
    else
      match boardStep ap s (inp 0) with
      | .next s2 ev =>
        ((boardRun ap fuel s2 fun n => inp (n + 1)).1,
          ev ++ (boardRun ap fuel s2 fun n => inp (n + 1)).2)
      | .halt ev => (.finished (gameReason s.pos), ev ++ [GEvent.summary (gameReason s.pos)])
      | .crash ev => (.crashed, ev)

/-- A provider that always answers with JSON lacking the `uci` key (but
whose raw text contains the substring `uci`). -/
def noUciKeyStream : Nat → BReply := fun _ => .jsonNoUciKey

/-- Summaries a run is expected to emit, by outcome: one for every
finished run (natural game end or abort via `break`), none when an
exception escapes the loop or the fuel runs out mid-game. -/
def srCount : RunResult → Nat
  | .finished _ => 1
  | .crashed => 0
  | .outOfFuel => 0

/-! ### Helper lemmas -/

theorem strData_append (a b : String) : (a ++ b).data = a.data ++ b.data := rfl

theorem joinComma_mem :
    ∀ (l : List String) (m : String), m ∈ l →
      ∃ a b, (joinComma l).data = a ++ m.data ++ b := by
  intro l
  induction l with
  | nil => intro m h; cases h
  | cons x xs ih =>
    intro m h
    cases xs with
    | nil =>
      have hm : m = x := by
        rcases List.mem_singleton.mp h with h1
        exact h1
      subst hm
      exact ⟨[], [], by simp [joinComma]⟩
    | cons y ys =>
      rcases List.mem_cons.mp h with h1 | h2
      · subst h1
        refine ⟨[], (", " ++ joinComma (y :: ys)).data, ?_⟩
        simp [joinComma, strData_append]
      · rcases ih m h2 with ⟨a, b, hab⟩
        refine ⟨(x ++ ", ").data ++ a, b, ?_⟩
        simp [joinComma, strData_append, hab, List.append_assoc]

theorem head?_dropWhile (p : Char → Bool) :
    ∀ (l : List Char) (c : Char), (l.dropWhile p).head? = some c → p c = false := by
  intro l
  induction l with
  | nil => intro c h; simp [List.dropWhile] at h
  | cons x xs ih =>
    intro c h
    rw [List.dropWhile_cons] at h
    by_cases hx : p x = true
    · rw [if_pos hx] at h
      exact ih c h
    · rw [if_neg hx] at h
      simp at h
      rw [← h]
      simpa using hx

theorem getLast?_stripList (l : List Char) (c : Char)
    (h : (stripList l).getLast? = some c) : isPySpace c = false := by
  unfold stripList at h
  rw [List.getLast?_reverse] at h
  exact head?_dropWhile isPySpace _ c h

theorem getLast?_charMap (f : Char → Char) (l : List Char) :
    (l.map f).getLast? = (l.getLast?).map f := by
  induction l with
  | nil => rfl
  | cons x xs ih => cases xs <;> simp_all

theorem pyLowerChar_not_newline (c : Char) (h : isPySpace c = false) :
    pyLowerChar c ≠ '\n' := by
  unfold pyLowerChar
  split <;> try decide
  intro hc
  subst hc
  exact absurd h (by decide)

theorem wordsAux_spaces :
    ∀ (sp : List Char), (∀ c ∈ sp, isPySpace c = true) →
      ∀ cur, wordsAux cur sp = if cur.isEmpty then [] else [cur.reverse] := by
  intro sp
  induction sp with
  | nil => intro _ cur; rfl
  | cons c cs ih =>
    intro h cur
    have hc : isPySpace c = true := h c (by simp)
    have hcs : ∀ x ∈ cs, isPySpace x = true := fun x hx => h x (by simp [hx])
    rw [wordsAux, if_pos hc]
    rw [ih hcs []]
    cases cur <;> simp

theorem wordsAux_append_spaces :
    ∀ (l sp : List Char), (∀ c ∈ sp, isPySpace c = true) →
      ∀ cur, wordsAux cur (l ++ sp) = wordsAux cur l := by
  intro l
  induction l with
  | nil =>
    intro sp h cur
    rw [List.nil_append, wordsAux_spaces sp h cur]
    rfl
  | cons c cs ih =>
    intro sp h cur
    rw [List.cons_append, wordsAux, wordsAux]
    by_cases hc : isPySpace c = true
    · rw [if_pos hc, if_pos hc]
      cases cur <;> simp [ih sp h]
    · rw [if_neg hc, if_neg hc]
      exact ih sp h (c :: cur)

theorem words_dropWhile :
    ∀ l : List Char, wordsAux [] (l.dropWhile isPySpace) = wordsAux [] l := by
  intro l
  induction l with
  | nil => rfl
  | cons c cs ih =>
    rw [List.dropWhile_cons]
    by_cases hc : isPySpace c = true
    · rw [if_pos hc, ih, wordsAux, if_pos hc]
      simp
    · rw [if_neg hc]

theorem stripList_decomp (l : List Char) :
    ∃ sp, l.dropWhile isPySpace = stripList l ++ sp ∧ ∀ c ∈ sp, isPySpace c = true := by
  refine ⟨((l.dropWhile isPySpace).reverse.takeWhile isPySpace).reverse, ?_, ?_⟩
  · conv_lhs => rw [← List.reverse_reverse (l.dropWhile isPySpace)]
    conv_lhs =>
      rw [← List.takeWhile_append_dropWhile
            (p := isPySpace) (l := (l.dropWhile isPySpace).reverse)]
    rw [List.reverse_append]
    rfl
  · intro c hc
    rw [List.mem_reverse] at hc
    exact List.mem_takeWhile_imp hc

theorem pyWords_strip (l : List Char) : pyWords (stripList l) = pyWords l := by
  obtain ⟨sp, hdec, hsp⟩ := stripList_decomp l
  unfold pyWords
  have h1 : wordsAux [] (stripList l) = wordsAux [] (stripList l ++ sp) :=
    (wordsAux_append_spaces _ sp hsp []).symm
  rw [h1, ← hdec]
  exact words_dropWhile l

/-! ### Claim theorems -/

/-- C4: when the game ends, both orchestrators compute the terminal
GameResult reason by testing the conditions in the exact ordered
precedence Checkmate > Stalemate > InsufficientMaterial > FiftyMoveRule >
ThreefoldRepetition > Unknown, the first matching condition winning: the
if-chain `gameReason` shared by `board.py` and `board_agent.py` equals
the spec's first-match precedence `reasonOrdered` on every Position. -/
theorem gameReason_is_ordered_precedence :
    ∀ p : Position, gameReason p = reasonOrdered p := by
  intro p
  rfl

/-- C7 counterexample: `board.py`'s syntactic validation is
`chess.Move.from_uci`, which accepts the out-of-grammar null move `0000`
and rejects the in-grammar string `e2e2`, so acceptance there is not
equivalent to the exact `[a-h][1-8][a-h][1-8][qrbn]?` grammar. -/
theorem fromUci_differs_from_grammar :
    (fromUci "0000").isSome = true ∧ uciGrammar "0000" = false ∧
      uciGrammar "e2e2" = true ∧ (fromUci "e2e2").isSome = false := by
  decide

/-- C7 amended: in `board_agent.py` the regex test applied to the
stripped, lowercased candidate is exactly the grammar — the `$`-before-
trailing-newline leniency of Python's `re` can never fire because a
stripped candidate never ends in a newline. -/
theorem regex_on_candidate_is_exact_grammar :
    ∀ raw : String, uciMatchPy (agCandidate raw) = uciGrammar (agCandidate raw) := by
  intro raw
  unfold uciMatchPy
  have hdata : (agCandidate raw).data = (stripList raw.data).map pyLowerChar := rfl
  rcases hl : (stripList raw.data).getLast? with _ | c
  · have h1 : (agCandidate raw).data.getLast? = none := by
      rw [hdata, getLast?_charMap, hl]; rfl
    rw [h1]
    simp
  · have hc := getLast?_stripList raw.data c hl
    have h1 : (agCandidate raw).data.getLast? = some (pyLowerChar c) := by
      rw [hdata, getLast?_charMap, hl]; rfl
    rw [h1]
    have hne : pyLowerChar c ≠ '\n' := pyLowerChar_not_newline c hc
    have h2 : ((some (pyLowerChar c) : Option Char) == some '\n') = false := by
      rw [beq_eq_false_iff_ne]
      intro h3
      exact hne (Option.some.inj h3)
    rw [h2]
    simp

/-- C9 counterexample: in `board_agent.py` (cited by the claim) the
candidate is the whole stripped, lowercased `move` field with no token
splitting — for the field `"e2e4 good move"` the candidate is the full
string, not the first whitespace-delimited token `"e2e4"`, and it is
then rejected by the format check. -/
theorem agCandidate_keeps_extra_tokens :
    agCandidate "e2e4 good move" = "e2e4 good move" ∧
      pyWords ("e2e4 good move").data = ["e2e4".data, "good".data, "move".data] ∧
      uciMatchPy (agCandidate "e2e4 good move") = false ∧
      ("e2e4 good move" : String) ≠ "e2e4" := by
  decide

/-- C9 amended: only the white/black provider agents take exactly the
lowercased first whitespace-delimited token of the raw reply as the
candidate (`.strip().split()[0].lower()`); the `board_agent.py`
orchestrator instead considers the whole stripped, lowercased `move`
field without splitting, so a reply with trailing commentary is rejected
there rather than trimmed. -/
theorem first_token_extraction :
    ∀ (raw : String) (t : List Char) (ts : List (List Char)),
      pyWords raw.data = t :: ts →
      extractCandidate raw = some (pyLower ⟨t⟩) ∧
        agCandidate raw = pyLower (pyStrip raw) := by
  intro raw t ts h
  refine ⟨?_, rfl⟩
  unfold extractCandidate
  have h2 : pyWords (pyStrip raw).data = t :: ts := by
    have h3 : (pyStrip raw).data = stripList raw.data := rfl
    rw [h3, pyWords_strip]
    exact h
  rw [h2]

/-- C9 witness: `first_token_extraction` applied to the concrete raw
reply `"E2E4  best!"`. -/
theorem first_token_extraction_witness :
    pyWords ("E2E4  best!").data = ["E2E4".data, "best!".data] ∧
      extractCandidate "E2E4  best!" = some (pyLower ⟨"E2E4".data⟩) :=
  ⟨by decide,
   (first_token_extraction "E2E4  best!" "E2E4".data ["best!".data] (by decide)).1⟩

theorem whiteLoop_mem (legal : List String) (replies : Nat → String) :
    ∀ (k i : Nat) (u : String), whiteLoop legal replies k i = .uciOk u → u ∈ legal := by
  intro k
  induction k with
  | zero =>
    intro i u h
    simp [whiteLoop] at h
  | succ k ih =>
    intro i u h
    rw [whiteLoop] at h
    cases hx : extractCandidate (replies i) with
    | none => rw [hx] at h; exact absurd h (by simp)
    | some uci =>
      simp only [hx] at h
      by_cases hm : uci ∈ legal
      · rw [if_pos hm] at h
        injection h with h2
        subst h2
        exact hm
      · rw [if_neg hm] at h
        exact ih (i + 1) u h

theorem blackLoop_mem (legal : List String) (replies : Nat → String) :
    ∀ (k i : Nat) (last u : String),
      blackLoop legal replies k i last = .uciOk u → u ∈ legal := by
  intro k
  induction k with
  | zero =>
    intro i last u h
    simp [blackLoop] at h
  | succ k ih =>
    intro i last u h
    rw [blackLoop] at h
    cases hx : extractCandidate (replies i) with
    | none => rw [hx] at h; exact absurd h (by simp)
    | some uci =>
      simp only [hx] at h
      by_cases hm : uci ∈ legal
      · rw [if_pos hm] at h
        injection h with h2
        subst h2
        exact hm
      · rw [if_neg hm] at h
        exact ih (i + 1) uci u h

/-- C10: for every FEN the board constructor accepts, the white and black
`move_tool` endpoints only ever return a `uci` value that is a member of
that position's legal-move set (every other return is an error dict, and
an unparsable LLM reply escapes as an exception, never as a `uci`). -/
theorem move_tool_uci_always_legal :
    ∀ (p : Position) (replies : Nat → String) (u : String),
      (whiteMoveTool (some p) replies = .uciOk u → u ∈ p.legalMoves) ∧
      (blackMoveTool (some p) replies = .uciOk u → u ∈ p.legalMoves) := by
  intro p replies u
  constructor
  · intro h
    simp only [whiteMoveTool] at h
    split_ifs at h with h1 h2
    exact whiteLoop_mem p.legalMoves replies _ 0 u h
  · intro h
    simp only [blackMoveTool] at h
    split_ifs at h with h1 h2
    exact blackLoop_mem p.legalMoves replies _ 0 "" u h

/-- C10 witness: `move_tool_uci_always_legal` applied at the initial
position (white replies `e2e4`) and at the position after `e2e4` (black
replies `e7e5`). -/
theorem move_tool_uci_always_legal_witness :
    "e2e4" ∈ startPos.legalMoves ∧ "e7e5" ∈ afterE4Pos.legalMoves :=
  ⟨(move_tool_uci_always_legal startPos (fun _ => "e2e4") "e2e4").1 (by decide),
   (move_tool_uci_always_legal afterE4Pos (fun _ => "e7e5") "e7e5").2 (by decide)⟩

set_option maxRecDepth 8000 in
/-- C8 counterexample: in `board_agent.py` the request re-sent after the
rejected reply `"zz9z"` (a retry transition of `agStep`) is the original
task string unchanged — it does not contain the rejected text (and lists
no legal moves). -/
theorem board_agent_retry_not_augmented :
    (agStep flipApply ⟨startPos, 0⟩ ⟨"white", .ok (some "zz9z")⟩).toNext =
        some ⟨startPos, 1⟩ ∧
      agRequest ⟨startPos, 1⟩ = agRequest ⟨startPos, 0⟩ ∧
      containsStr (agRequest ⟨startPos, 1⟩) "zz9z" = false := by
  refine ⟨by decide, rfl, ?_⟩
  decide

/-- C8 amended: the white and black provider agents' internal retry
prompts do include the literal rejected candidate and re-list the whole
legal-move set; the `board_agent.py` orchestrator's retry, however,
re-enters the loop with the request unchanged (it depends only on the
position), so no rejected text is added at that level. -/
theorem retry_feedback_content :
    (∀ (uci : String) (legal : List String),
      ∃ a b, (whiteRetryPrompt uci legal).data = a ++ uci.data ++ b) ∧
    (∀ (uci : String) (legal : List String) (m : String), m ∈ legal →
      ∃ a b, (whiteRetryPrompt uci legal).data = a ++ m.data ++ b) ∧
    (∀ (uci : String) (legal : List String),
      ∃ a b, (blackRetryPrompt uci legal).data = a ++ uci.data ++ b) ∧
    (∀ (uci : String) (legal : List String) (m : String), m ∈ legal →
      ∃ a b, (blackRetryPrompt uci legal).data = a ++ m.data ++ b) ∧
    (∀ (ap : Position → String → Position) (s : AgState) (r : AgReply) s2 ev,
      agStep ap s r = .next s2 ev → ev.any isAcceptedEv = false →
      agRequest s2 = agRequest s) := by
  refine ⟨?_, ?_, ?_, ?_, ?_⟩
  · intro uci legal
    refine ⟨"That move:".data,
      (" is illegal or not in the valid moves list.\n" ++
        ("Pick ONE move from: " ++ joinComma legal)).data, ?_⟩
    simp [whiteRetryPrompt, strData_append, List.append_assoc]
  · intro uci legal m hm
    rcases joinComma_mem legal m hm with ⟨a, b, hab⟩
    refine ⟨("That move:" ++ uci ++ " is illegal or not in the valid moves list.\n" ++
      "Pick ONE move from: ").data ++ a, b, ?_⟩
    simp [whiteRetryPrompt, strData_append, hab, List.append_assoc]
  · intro uci legal
    refine ⟨"That move:".data,
      (" is not in the list or is illegal. " ++
        ("Pick ONE move from: " ++ joinComma legal)).data, ?_⟩
    simp [blackRetryPrompt, strData_append, List.append_assoc]
  · intro uci legal m hm
    rcases joinComma_mem legal m hm with ⟨a, b, hab⟩
    refine ⟨("That move:" ++ uci ++ " is not in the list or is illegal. " ++
      "Pick ONE move from: ").data ++ a, b, ?_⟩
    simp [blackRetryPrompt, strData_append, hab, List.append_assoc]
  · intro ap s r s2 ev h hacc
    cases r with
    | mk choice result =>
      cases result with
      | timeout => simp [agStep] at h
      | unreachable => simp [agStep] at h
      | ok field? =>
        cases field? with
        | none =>
          simp only [agStep, agRetry] at h
          by_cases hr : s.noRetries < MAX_RETRIES_ON_INVALID_MOVE
          · rw [if_pos hr] at h
            injection h with hs hev
            subst hs
            rfl
          · rw [if_neg hr] at h
            exact StepRes.noConfusion h
        | some f =>
          simp only [agStep] at h
          by_cases hm : uciMatchPy (agCandidate f) = true
          · rw [if_pos hm] at h
            cases hf : fromUci (agCandidate f) with
            | none =>
              simp only [hf] at h
              exact StepRes.noConfusion h
            | some mv =>
              simp only [hf] at h
              by_cases hmem : agCandidate f ∈ s.pos.legalMoves
              · rw [if_pos hmem] at h
                injection h with hs hev
                subst hev
                simp [isAcceptedEv] at hacc
              · rw [if_neg hmem] at h
                exact StepRes.noConfusion h
          · rw [if_neg hm] at h
            simp only [agRetry] at h
            by_cases hr : s.noRetries < MAX_RETRIES_ON_INVALID_MOVE
            · rw [if_pos hr] at h
              injection h with hs hev
              subst hs
              rfl
            · rw [if_neg hr] at h
              exact StepRes.noConfusion h

set_option maxRecDepth 8000 in
/-- C8 witness: `retry_feedback_content` applied to the rejected text
`"z9z9"` with legal-move list `["e2e4"]`, and to the concrete
`board_agent.py` retry transition after the rejected reply `"zz9z"`. -/
theorem retry_feedback_content_witness :
    (∃ a b, (whiteRetryPrompt "z9z9" ["e2e4"]).data = a ++ "z9z9".data ++ b) ∧
      (∃ a b, (whiteRetryPrompt "z9z9" ["e2e4"]).data = a ++ "e2e4".data ++ b) ∧
      (∃ a b, (blackRetryPrompt "z9z9" ["e2e4"]).data = a ++ "z9z9".data ++ b) ∧
      (∃ a b, (blackRetryPrompt "z9z9" ["e2e4"]).data = a ++ "e2e4".data ++ b) ∧
      agRequest ⟨startPos, 1⟩ = agRequest ⟨startPos, 0⟩ :=
  ⟨retry_feedback_content.1 "z9z9" ["e2e4"],
   retry_feedback_content.2.1 "z9z9" ["e2e4"] "e2e4" (by decide),
   retry_feedback_content.2.2.1 "z9z9" ["e2e4"],
   retry_feedback_content.2.2.2.1 "z9z9" ["e2e4"] "e2e4" (by decide),
   retry_feedback_content.2.2.2.2 flipApply ⟨startPos, 0⟩ ⟨"white", .ok (some "zz9z")⟩
     ⟨startPos, 1⟩ [GEvent.call true (agRequest ⟨startPos, 0⟩)] (by decide) (by decide)⟩

/-- C2 counterexample: in `board_agent.py`, from the initial position the
syntactically invalid reply `"z9z9"` triggers a retry (the loop continues
with the counter at 1), but the in-grammar yet illegal reply `"a7a6"`
`break`s out of the loop and ends the game — the two cases are not
handled identically and the illegal one never consumes a retry. -/
theorem invalid_and_illegal_replies_differ :
    (agStep flipApply ⟨startPos, 0⟩ ⟨"white", .ok (some "z9z9")⟩).toNext =
        some ⟨startPos, 1⟩ ∧
      (agStep flipApply ⟨startPos, 0⟩ ⟨"white", .ok (some "a7a6")⟩).isHalt = true ∧
      (agStep flipApply ⟨startPos, 0⟩ ⟨"white", .ok (some "a7a6")⟩).toNext = none := by
  decide

/-- C2 amended: in `board_agent.py` a reply whose candidate fails the
canonical-encoding regex consumes one unit of the retry budget and
re-enters the loop (while the budget lasts), whereas an in-grammar
candidate outside the current legal-move set immediately ends the game;
in `board.py` a `payload["uci"]` that is unparsable or illegal likewise
ends the game at once. -/
theorem invalid_vs_illegal_reply_handling :
    (∀ (ap : Position → String → Position) (s : AgState) (ch f : String),
      uciMatchPy (agCandidate f) = false →
      s.noRetries < MAX_RETRIES_ON_INVALID_MOVE →
      (agStep ap s ⟨ch, .ok (some f)⟩).toNext = some ⟨s.pos, s.noRetries + 1⟩) ∧
    (∀ (ap : Position → String → Position) (s : AgState) (ch f : String),
      uciMatchPy (agCandidate f) = true →
      agCandidate f ∉ s.pos.legalMoves →
      (agStep ap s ⟨ch, .ok (some f)⟩).isHalt = true) ∧
    (∀ (ap : Position → String → Position) (s : BState) (uci : String),
      uci ∉ s.pos.legalMoves →
      (boardStep ap s (.jsonUci uci)).isHalt = true) := by
  refine ⟨?_, ?_, ?_⟩
  · intro ap s ch f hm hr
    simp [agStep, agRetry, hm, hr, StepRes.toNext]
  · intro ap s ch f hm hmem
    cases hf : fromUci (agCandidate f) with
    | none => simp [agStep, hm, hf, StepRes.isHalt]
    | some mv => simp [agStep, hm, hf, hmem, StepRes.isHalt]
  · intro ap s uci hmem
    cases hf : fromUci uci with
    | none => simp [boardStep, hf, StepRes.isHalt]
    | some mv => simp [boardStep, hf, hmem, StepRes.isHalt]

/-- C2 witness: `invalid_vs_illegal_reply_handling` at the malformed
reply `"qq9q"`, the in-grammar illegal reply `"b7b5"` (not legal for
white from the start), and the unparsable `board.py` payload `"0000"`. -/
theorem invalid_vs_illegal_reply_handling_witness :
    (agStep flipApply ⟨startPos, 2⟩ ⟨"white", .ok (some "qq9q")⟩).toNext =
        some ⟨startPos, 3⟩ ∧
      (agStep flipApply ⟨startPos, 2⟩ ⟨"white", .ok (some "b7b5")⟩).isHalt = true ∧
      (boardStep flipApply ⟨startPos, 0, true⟩ (.jsonUci "0000")).isHalt = true :=
  ⟨invalid_vs_illegal_reply_handling.1 flipApply ⟨startPos, 2⟩ "white" "qq9q"
     (by decide) (by decide),
   invalid_vs_illegal_reply_handling.2.1 flipApply ⟨startPos, 2⟩ "white" "b7b5"
     (by decide) (by decide),
   invalid_vs_illegal_reply_handling.2.2 flipApply ⟨startPos, 0, true⟩ "0000"
     (by decide)⟩

set_option maxRecDepth 8000 in
/-- C3 counterexample: `board_agent.py` does not derive the active side
from the Position — it asks an external agent; when that agent answers
`"black"` at the initial position (whose side to move is White), the
orchestrator addresses the black provider, so the tracking mechanism
diverges from the authoritative Position's side to move. -/
theorem side_tracking_diverges :
    startPos.turn = true ∧
      calledSide (agStep flipApply ⟨startPos, 0⟩
          ⟨"black", .ok (some "e7e5")⟩).events = some false := by
  constructor
  · decide
  · decide

/-- C3 amended: in both orchestrators the authoritative Position's side
to move starts at White and flips exactly on Accepted outcomes (given
that the oracle's `push` flips the turn), staying unchanged on every
other outcome; `board.py`'s separately tracked `current_name` provably
stays in lockstep with the Position; but `board_agent.py` routes each
turn to the provider named by an external per-turn reply, which is not
derived from the Position (see the counterexample). -/
theorem side_alternation :
    startPos.turn = true ∧
    (∀ (ap : Position → String → Position) (s : AgState) (r : AgReply) s2 ev,
      (∀ p m, (ap p m).turn = !p.turn) →
      agStep ap s r = .next s2 ev →
      (ev.any isAcceptedEv = true → s2.pos.turn = !s.pos.turn) ∧
      (ev.any isAcceptedEv = false → s2.pos = s.pos)) ∧
    (∀ (ap : Position → String → Position) (s : BState) (r : BReply) s2 ev,
      (∀ p m, (ap p m).turn = !p.turn) →
      boardStep ap s r = .next s2 ev →
      (ev.any isAcceptedEv = true →
        s2.pos.turn = !s.pos.turn ∧ s2.currentWhite = !s.currentWhite) ∧
      (ev.any isAcceptedEv = false →
        s2.pos = s.pos ∧ s2.currentWhite = s.currentWhite)) := by
  refine ⟨by decide, ?_, ?_⟩
  · intro ap s r s2 ev hap h
    cases r with
    | mk choice result =>
      cases result with
      | timeout => simp [agStep] at h
      | unreachable => simp [agStep] at h
      | ok field? =>
        cases field? with
        | none =>
          simp only [agStep, agRetry] at h
          by_cases hr : s.noRetries < MAX_RETRIES_ON_INVALID_MOVE
          · rw [if_pos hr] at h
            injection h with hs hev
            subst hs
            subst hev
            constructor
            · intro hacc
              simp [isAcceptedEv] at hacc
            · intro _
              rfl
          · rw [if_neg hr] at h
            exact StepRes.noConfusion h
        | some f =>
          simp only [agStep] at h
          by_cases hm : uciMatchPy (agCandidate f) = true
          · rw [if_pos hm] at h
            cases hf : fromUci (agCandidate f) with
            | none =>
              simp only [hf] at h
              exact StepRes.noConfusion h
            | some mv =>
              simp only [hf] at h
              by_cases hmem : agCandidate f ∈ s.pos.legalMoves
              · rw [if_pos hmem] at h
                injection h with hs hev
                subst hs
                subst hev
                constructor
                · intro _
                  exact hap s.pos (agCandidate f)
                · intro hacc
                  simp [isAcceptedEv] at hacc
              · rw [if_neg hmem] at h
                exact StepRes.noConfusion h
          · rw [if_neg hm] at h
            simp only [agRetry] at h
            by_cases hr : s.noRetries < MAX_RETRIES_ON_INVALID_MOVE
            · rw [if_pos hr] at h
              injection h with hs hev
              subst hs
              subst hev
              constructor
              · intro hacc
                simp [isAcceptedEv] at hacc
              · intro _
                rfl
            · rw [if_neg hr] at h
              exact StepRes.noConfusion h
  · intro ap s r s2 ev hap h
    cases r with
    | timeout => simp [boardStep] at h
    | unreachable => simp [boardStep] at h
    | jsonError => simp [boardStep] at h
    | noUciSubstr =>
      simp only [boardStep] at h
      by_cases hc : s.invalidCount + 1 ≤ max_invalid
      · rw [if_pos hc] at h
        injection h with hs hev
        subst hs
        subst hev
        constructor
        · intro hacc
          simp [isAcceptedEv] at hacc
        · intro _
          exact ⟨rfl, rfl⟩
      · rw [if_neg hc] at h
        exact StepRes.noConfusion h
    | jsonNoUciKey =>
      simp only [boardStep] at h
      have hc : ¬(0 + 1 ≥ max_invalid) := by decide
      rw [if_neg hc] at h
      injection h with hs hev
      subst hs
      subst hev
      constructor
      · intro hacc
        simp [isAcceptedEv] at hacc
      · intro _
        exact ⟨rfl, rfl⟩
    | jsonUci uci =>
      cases hf : fromUci uci with
      | none =>
        simp only [boardStep, hf] at h
        exact StepRes.noConfusion h
      | some mv =>
        simp only [boardStep, hf] at h
        by_cases hmem : uci ∈ s.pos.legalMoves
        · rw [if_pos hmem] at h
          injection h with hs hev
          subst hs
          subst hev
          constructor
          · intro _
            exact ⟨hap s.pos uci, rfl⟩
          · intro hacc
            simp [isAcceptedEv] at hacc
        · rw [if_neg hmem] at h
          exact StepRes.noConfusion h

set_option maxRecDepth 8000 in
/-- C3 witness: `side_alternation` at a concrete accepted `board_agent`
step (`e2e4` from the start, which flips the turn) and at a concrete
non-accepted `board.py` step (a malformed reply, which leaves both the
position and `current_name` unchanged). -/
theorem side_alternation_witness :
    (⟨flipApply startPos "e2e4", 0⟩ : AgState).pos.turn =
        !(⟨startPos, 0⟩ : AgState).pos.turn ∧
      ((⟨startPos, 1, true⟩ : BState).pos = (⟨startPos, 0, true⟩ : BState).pos ∧
        (⟨startPos, 1, true⟩ : BState).currentWhite =
          (⟨startPos, 0, true⟩ : BState).currentWhite) :=
  ⟨(side_alternation.2.1 flipApply ⟨startPos, 0⟩ ⟨"white", .ok (some "e2e4")⟩
      ⟨flipApply startPos "e2e4", 0⟩
      ([GEvent.call true (agRequest ⟨startPos, 0⟩)] ++ [GEvent.accepted "e2e4"])
      (fun _ _ => rfl) (by decide)).1 (by decide),
   (side_alternation.2.2 flipApply ⟨startPos, 0, true⟩ .noUciSubstr
      ⟨startPos, 1, true⟩ [GEvent.call true startPos.fen]
      (fun _ _ => rfl) (by decide)).2 (by decide)⟩

/-- C5: from any Position whose legal-move set is empty, both
orchestrator loops terminate at once — the run produces only the final
summary event (in particular zero provider calls) and the recorded
reason is Checkmate when the side to move is in check, else Stalemate. -/
theorem empty_legal_moves_immediate_game_over :
    ∀ (ap : Position → String → Position) (p : Position) (nR iC : Nat) (cW : Bool)
      (inA : Nat → AgReply) (inB : Nat → BReply) (fuel : Nat),
      p.legalMoves = [] →
      agRun ap (fuel + 1) ⟨p, nR⟩ inA =
          (.finished (if p.inCheck then "Checkmate" else "Stalemate"),
            [GEvent.summary (if p.inCheck then "Checkmate" else "Stalemate")]) ∧
        boardRun ap (fuel + 1) ⟨p, iC, cW⟩ inB =
          (.finished (if p.inCheck then "Checkmate" else "Stalemate"),
            [GEvent.summary (if p.inCheck then "Checkmate" else "Stalemate")]) := by
  intro ap p nR iC cW inA inB fuel h
  have hgo : isGameOver p = true := by
    cases hc : p.inCheck <;>
      simp [isGameOver, isCheckmate, isStalemate, h, hc]
  have hreason : gameReason p = if p.inCheck then "Checkmate" else "Stalemate" := by
    cases hc : p.inCheck <;>
      simp [gameReason, isCheckmate, isStalemate, h, hc]
  constructor
  · rw [agRun, if_pos hgo, hreason]
  · rw [boardRun, if_pos hgo, hreason]

/-- C5 witness: `empty_legal_moves_immediate_game_over` at the concrete
stalemate position `stalePos`. -/
theorem empty_legal_moves_immediate_game_over_witness :
    agRun flipApply 1 ⟨stalePos, 0⟩ (fun _ => ⟨"white", .ok none⟩) =
        (.finished "Stalemate", [GEvent.summary "Stalemate"]) ∧
      boardRun flipApply 1 ⟨stalePos, 0, true⟩ (fun _ => .noUciSubstr) =
        (.finished "Stalemate", [GEvent.summary "Stalemate"]) :=
  empty_legal_moves_immediate_game_over flipApply stalePos 0 0 true
    (fun _ => ⟨"white", .ok none⟩) (fun _ => .noUciSubstr) 0 rfl

theorem agStep_no_summary (ap : Position → String → Position) (s : AgState) (r : AgReply) :
    summaryCount (agStep ap s r).events = 0 := by
  cases r with
  | mk choice result =>
    cases result with
    | timeout =>
      simp [agStep, StepRes.events, summaryCount, isSummaryEv]
    | unreachable =>
      simp [agStep, StepRes.events, summaryCount, isSummaryEv]
    | ok field? =>
      cases field? with
      | none =>
        by_cases hr : s.noRetries < MAX_RETRIES_ON_INVALID_MOVE <;>
          simp [agStep, agRetry, hr, StepRes.events, summaryCount, isSummaryEv]
      | some f =>
        by_cases hm : uciMatchPy (agCandidate f) = true
        · cases hf : fromUci (agCandidate f) with
          | none =>
            simp [agStep, hm, hf, StepRes.events, summaryCount, isSummaryEv]
          | some mv =>
            by_cases hmem : agCandidate f ∈ s.pos.legalMoves <;>
              simp [agStep, hm, hf, hmem, StepRes.events, summaryCount, isSummaryEv]
        · by_cases hr : s.noRetries < MAX_RETRIES_ON_INVALID_MOVE <;>
            simp [agStep, agRetry, hm, hr, StepRes.events, summaryCount, isSummaryEv]

theorem boardStep_no_summary (ap : Position → String → Position) (s : BState) (r : BReply) :
    summaryCount (boardStep ap s r).events = 0 := by
  cases r with
  | timeout => simp [boardStep, StepRes.events, summaryCount, isSummaryEv]
  | unreachable => simp [boardStep, StepRes.events, summaryCount, isSummaryEv]
  | jsonError => simp [boardStep, StepRes.events, summaryCount, isSummaryEv]
  | noUciSubstr =>
    by_cases hc : s.invalidCount + 1 ≤ max_invalid <;>
      simp [boardStep, hc, StepRes.events, summaryCount, isSummaryEv]
  | jsonNoUciKey =>
    have hc : ¬(0 + 1 ≥ max_invalid) := by decide
    simp [boardStep, hc, StepRes.events, summaryCount, isSummaryEv]
  | jsonUci uci =>
    cases hf : fromUci uci with
    | none => simp [boardStep, hf, StepRes.events, summaryCount, isSummaryEv]
    | some mv =>
      by_cases hmem : uci ∈ s.pos.legalMoves <;>
        simp [boardStep, hf, hmem, StepRes.events, summaryCount, isSummaryEv]

theorem agRun_summaryCount (ap : Position → String → Position) :
    ∀ (fuel : Nat) (s : AgState) (inp : Nat → AgReply),
      summaryCount (agRun ap fuel s inp).2 = srCount (agRun ap fuel s inp).1 := by
  intro fuel
  induction fuel with
  | zero =>
    intro s inp
    simp [agRun, summaryCount, srCount]
  | succ n ih =>
    intro s inp
    rw [agRun]
    by_cases hg : isGameOver s.pos = true
    · rw [if_pos hg]
      simp [summaryCount, srCount, isSummaryEv]
    · rw [if_neg hg]
      cases hstep : agStep ap s (inp 0) with
      | next s2 ev0 =>
        simp only [hstep]
        have h0 := agStep_no_summary ap s (inp 0)
        rw [hstep] at h0
        simp only [StepRes.events] at h0
        unfold summaryCount at h0 ⊢
        rw [List.countP_append, h0]
        have h1 := ih s2 (fun k => inp (k + 1))
        unfold summaryCount at h1
        omega
      | halt ev0 =>
        simp only [hstep]
        have h0 := agStep_no_summary ap s (inp 0)
        rw [hstep] at h0
        simp only [StepRes.events] at h0
        unfold summaryCount at h0 ⊢
        rw [List.countP_append, h0]
        simp [srCount, isSummaryEv]
      | crash ev0 =>
        simp only [hstep]
        have h0 := agStep_no_summary ap s (inp 0)
        rw [hstep] at h0
        simp only [StepRes.events] at h0
        exact h0

theorem boardRun_summaryCount (ap : Position → String → Position) :
    ∀ (fuel : Nat) (s : BState) (inp : Nat → BReply),
      summaryCount (boardRun ap fuel s inp).2 = srCount (boardRun ap fuel s inp).1 := by
  intro fuel
  induction fuel with
  | zero =>
    intro s inp
    simp [boardRun, summaryCount, srCount]
  | succ n ih =>
    intro s inp
    rw [boardRun]
    by_cases hg : isGameOver s.pos = true
    · rw [if_pos hg]
      simp [summaryCount, srCount, isSummaryEv]
    · rw [if_neg hg]
      cases hstep : boardStep ap s (inp 0) with
      | next s2 ev0 =>
        simp only [hstep]
        have h0 := boardStep_no_summary ap s (inp 0)
        rw [hstep] at h0
        simp only [StepRes.events] at h0
        unfold summaryCount at h0 ⊢
        rw [List.countP_append, h0]
        have h1 := ih s2 (fun k => inp (k + 1))
        unfold summaryCount at h1
        omega
      | halt ev0 =>
        simp only [hstep]
        have h0 := boardStep_no_summary ap s (inp 0)
        rw [hstep] at h0
        simp only [StepRes.events] at h0
        unfold summaryCount at h0 ⊢
        rw [List.countP_append, h0]
        simp [srCount, isSummaryEv]
      | crash ev0 =>
        simp only [hstep]
        have h0 := boardStep_no_summary ap s (inp 0)
        rw [hstep] at h0
        simp only [StepRes.events] at h0
        exact h0

/-- C6 counterexample: a provider timeout on the very first move request
raises out of the loop — the run ends `crashed` with no summary event and
no recorded GameResult, contradicting "always terminates with exactly one
recorded GameResult and a final summary event". -/
theorem timeout_crashes_without_summary :
    (agRun flipApply 3 ⟨startPos, 0⟩ (fun _ => ⟨"white", .timeout⟩)).1 = .crashed ∧
      summaryCount (agRun flipApply 3 ⟨startPos, 0⟩ (fun _ => ⟨"white", .timeout⟩)).2 = 0 ∧
      (boardRun flipApply 3 ⟨startPos, 0, true⟩ (fun _ => .timeout)).1 = .crashed ∧
      summaryCount (boardRun flipApply 3 ⟨startPos, 0, true⟩ (fun _ => .timeout)).2 = 0 := by
  refine ⟨by decide, by decide, by decide, by decide⟩

/-- C6 amended: every run of either orchestrator loop that exits the loop
itself — a natural game end or an abort via `break` — emits exactly one
final summary; but a non-retryable provider failure (timeout or
unreachability mid-request) propagates as an uncaught exception and ends
the run with no summary and no recorded GameResult (`srCount` is 1 on
finished runs and 0 on crashed ones). -/
theorem run_summary_exactly_once :
    ∀ (ap : Position → String → Position) (fuel : Nat) (s : AgState)
      (inp : Nat → AgReply) (sb : BState) (inp2 : Nat → BReply),
      summaryCount (agRun ap fuel s inp).2 = srCount (agRun ap fuel s inp).1 ∧
        summaryCount (boardRun ap fuel sb inp2).2 = srCount (boardRun ap fuel sb inp2).1 :=
  fun ap fuel s inp sb inp2 =>
    ⟨agRun_summaryCount ap fuel s inp, boardRun_summaryCount ap fuel sb inp2⟩

/-- C1 (code defect): in `board.py`, a provider that always replies with
JSON lacking the `uci` key (raw text still containing the substring
`uci`) is retried forever — `invalid_count` is reset to 0 at line 101
before the second check increments it, so the `>= max_invalid` abort can
never fire: for every fuel bound the run is still going, it never aborts
after the budget of 50 as the claim requires. -/
theorem board_missing_uci_key_retries_forever :
    ∀ (ap : Position → String → Position) (n c : Nat) (w : Bool),
      (boardRun ap n ⟨startPos, c, w⟩ noUciKeyStream).1 = .outOfFuel := by
  intro ap n
  induction n with
  | zero =>
    intro c w
    rfl
  | succ n ih =>
    intro c w
    rw [boardRun]
    have hg : ¬(isGameOver startPos = true) := by decide
    rw [if_neg hg]
    have hstep : boardStep ap ⟨startPos, c, w⟩ (noUciKeyStream 0) =
        .next ⟨startPos, 1, w⟩ [GEvent.call w startPos.fen] := by
      have hc : ¬(0 + 1 ≥ max_invalid) := by decide
      simp [noUciKeyStream, boardStep, hc]
    simp only [hstep]
    exact ih 1 w
